import Mathlib

/-!
Verification of the frame-sampling and grid-composition pipeline of
`src/VideoToGrid.ts` (class `VideoFrameExtractor`).

Shallow embedding conventions:
* JavaScript numbers are modelled as rationals (`ℚ`): all arithmetic in the
  pipeline is exact arithmetic on small literals and the spec treats it exactly.
* File names are Lean `String`s; `Array.prototype.sort()` on strings (default
  comparator: lexicographic, stable) is modelled by a stable insertion sort by
  name (`sortEntries`); the extraction timestamp each path was produced with is
  carried alongside the path so that ordering properties can be stated.
* The filesystem is a record of directory listings; writing a file appends its
  name if absent (overwrite keeps one entry), purging a directory empties it.
-/

namespace VideoToGrid

/-- `interface FrameConfig { interval: number; maxFrames: number }`. -/
structure FrameConfig where
  interval : ℚ
  maxFrames : ℕ
  deriving DecidableEq, Repr

/-- `getFrameConfig(durationInMinutes)` from `VideoToGrid.ts` lines 138-152:
the step table from duration in minutes to a sampling plan. -/
def getFrameConfig (durationInMinutes : ℚ) : FrameConfig :=
  if durationInMinutes ≤ 0.5 then ⟨2, 16⟩
  else if durationInMinutes ≤ 1 then ⟨3, 20⟩
  else if durationInMinutes ≤ 2 then ⟨4, 28⟩
  else if durationInMinutes ≤ 3 then ⟨5, 32⟩
  else if durationInMinutes ≤ 4 then ⟨6, 36⟩
  else ⟨7, 40⟩

/-- `String(n).padStart(3, '0')` for a natural number `n`. -/
def padStart3 (s : String) : String :=
  if s.length < 3 then String.mk (List.replicate (3 - s.length) '0') ++ s else s

/-- The frame output file name `frame_${String(n).padStart(3,'0')}.jpg`. -/
def frameName (n : ℕ) : String :=
  "frame_" ++ padStart3 (toString n) ++ ".jpg"

/-- The grid output file name `grid_${String(n).padStart(3,'0')}.jpg`. -/
def gridName (n : ℕ) : String :=
  "grid_" ++ padStart3 (toString n) ++ ".jpg"

/-- `frameCount = Math.min(Math.floor(durationInSeconds / config.interval) + 1,
config.maxFrames)` (lines 250-254), with the config taken from
`getFrameConfig(durationInSeconds / 60)`. -/
def frameCountOf (d : ℚ) : ℕ :=
  min (⌊d / (getFrameConfig (d / 60)).interval⌋ + 1).toNat
    (getFrameConfig (d / 60)).maxFrames

/-- A pending extraction: output file name paired with the timestamp passed to
`extractFrame`. -/
abbrev Entry := String × ℚ

/-- The first extraction: `frame_000.jpg` at time `0` (lines 258-261). -/
def firstEntry : Entry := (frameName 0, 0)

/-- The interior extractions (lines 263-273): for `i = 0 .. frameCount-3`,
`frame_{i+1}` at time `(i + 1) * ((durationInSeconds - 1) / (frameCount - 2))`.
`Array.from({length: frameCount - 2})` clamps a negative length to `0`, as ℕ
subtraction does. -/
def interiorEntries (d : ℚ) : List Entry :=
  (List.range (frameCountOf d - 2)).map (fun i =>
    (frameName (i + 1),
     ((i : ℚ) + 1) * ((d - 1) / ((frameCountOf d : ℚ) - 2))))

/-- The last extraction (lines 275-279): `frame_{frameCount-1}` at time
`durationInSeconds - 0.1`. -/
def lastEntry (d : ℚ) : Entry := (frameName (frameCountOf d - 1), d - 0.1)

/-- All extractions of one run, in program-issue order: first, then the
interior ones (their completion order is nondeterministic), then the last. -/
def frameEntries (d : ℚ) : List Entry :=
  firstEntry :: (interiorEntries d ++ [lastEntry d])

/-- Lexicographic strict comparison of two character sequences by code unit,
the comparison `Array.prototype.sort`'s default comparator applies to strings
(all names in this pipeline are ASCII, so code units and code points agree). -/
def lexLtB : List Char → List Char → Bool
  | _, [] => false
  | [], _ :: _ => true
  | a :: as, b :: bs =>
    if a.toNat < b.toNat then true
    else if b.toNat < a.toNat then false
    else lexLtB as bs

/-- Strict lexicographic order on file names. -/
def strLtB (a b : String) : Bool := lexLtB a.data b.data

/-- Non-strict lexicographic order on file names. -/
def strLeB (a b : String) : Bool := ! strLtB b a

/-- Stable insertion of an entry into a name-sorted list: the inserted element
goes before the first entry of larger-or-equal name, matching the stability of
`Array.prototype.sort`. -/
def insertEntry (x : Entry) : List Entry → List Entry
  | [] => [x]
  | y :: ys => if strLeB x.1 y.1 then x :: y :: ys else y :: insertEntry x ys

/-- Stable sort by file name, modelling `frameFiles.sort()` (line 282). -/
def sortEntries : List Entry → List Entry
  | [] => []
  | x :: xs => insertEntry x (sortEntries xs)

/-- The list `frameFiles` as it stands just before `.sort()`: the first entry
was pushed before the concurrent interior extractions, `mid` is the interior
entries in whatever order their extractions completed, and the last entry was
pushed after `Promise.all` resolved. -/
def extractFramesFrom (d : ℚ) (mid : List Entry) : List Entry :=
  sortEntries (firstEntry :: (mid ++ [lastEntry d]))

/-- `extractFrames(videoPath, durationInSeconds)` (lines 247-283): the returned
sorted list of frame file paths. -/
def extractFrames (d : ℚ) : List String :=
  (extractFramesFrom d (interiorEntries d)).map Prod.fst

/-- Writing a file into a directory listing: overwriting keeps one entry. -/
def writeFile (dir : List String) (name : String) : List String :=
  if name ∈ dir then dir else dir ++ [name]

/-- The contents of the frames directory after a run: `prepareOutputFolder`
purges it (lines 154-166), then every extraction writes its output path. -/
def extractedFileNames (d : ℚ) : List String :=
  (frameEntries d).foldl (fun dir e => writeFile dir e.1) []

/-- `const numGrids = Math.ceil(frameFiles.length / 4)` (line 236). -/
def numGrids (n : ℕ) : ℕ := (⌈(n : ℚ) / 4⌉).toNat

/-- `createGrids` batching (lines 235-242): grid `i` receives
`frameFiles.slice(i * 4, (i + 1) * 4)`; the output index is bound per task, so
it does not depend on completion order. -/
def gridBatches (frameFiles : List String) : List (ℕ × List String) :=
  (List.range (numGrids frameFiles.length)).map
    (fun i => (i, (frameFiles.drop (i * 4)).take 4))

/-- The contents of the grid directory after `createGrids`: purged (lines
229-233), then one composite written per batch. -/
def gridFileNames (n : ℕ) : List String :=
  (List.range (numGrids n)).foldl (fun dir i => writeFile dir (gridName i)) []

/-- One placed frame inside the composite of `createGrid` (lines 191-208):
the resize target size and the overlay offsets computed from the index. -/
structure Overlay where
  source : String
  top : ℕ
  left : ℕ
  width : ℕ
  height : ℕ
  deriving DecidableEq, Repr

/-- The composite image written by `createGrid` (lines 174-219). -/
structure GridOutput where
  fileName : String
  canvasWidth : ℕ
  canvasHeight : ℕ
  backgroundRGB : ℕ × ℕ × ℕ
  overlays : List Overlay
  deriving DecidableEq, Repr

/-- `createGrid(frameFiles, gridIndex)` (lines 174-219): returns `none` when
`frameFiles` is empty (early return, nothing written); otherwise one composite
on a 1920×1080 black canvas. `frameWidth = Math.floor(1920/2)`,
`frameHeight = Math.floor(1080/2)`, `gap = 2`; each of the first 4 frames is
resized to `(frameWidth - gap) × (frameHeight - gap)` and overlaid at
`top = Math.floor(index/2)*frameHeight + Math.floor(gap/2)`,
`left = (index%2)*frameWidth + Math.floor(gap/2)`. -/
def createGrid (frameFiles : List String) (gridIndex : ℕ) : Option GridOutput :=
  if frameFiles.length = 0 then none
  else
    let frameWidth := 1920 / 2
    let frameHeight := 1080 / 2
    let gap := 2
    some
      { fileName := "grid_" ++ padStart3 (toString gridIndex) ++ ".jpg"
        canvasWidth := 1920
        canvasHeight := 1080
        backgroundRGB := (0, 0, 0)
        overlays :=
          (frameFiles.take 4).mapIdx (fun index f =>
            { source := f
              top := index / 2 * frameHeight + gap / 2
              left := index % 2 * frameWidth + gap / 2
              width := frameWidth - gap
              height := frameHeight - gap }) }

/-- The typed error codes of `VideoProcessingError` as they appear in
`VideoToGrid.ts`. -/
inductive VError where
  | FFMPEG_NOT_FOUND
  | PERMISSION_ERROR
  | NO_VIDEO_FOUND
  | MULTIPLE_VIDEOS
  | EMPTY_FILE
  | FILE_ACCESS_ERROR
  | INVALID_DURATION
  | DURATION_TOO_LONG
  | DURATION_READ_ERROR
  | UNKNOWN_ERROR
  deriving DecidableEq, Repr

/-- `this.supportedFormats` (line 32). -/
def supportedFormats : List String := [".mp4", ".mov", ".avi", ".mkv", ".wmv"]

/-- `path.extname` for a directory entry (a base name, no separators): the
suffix starting at the last `'.'`, empty when there is no dot or the only dot
is the leading character. -/
def lastDotIndex (cs : List Char) (idx : ℕ) (acc : Option ℕ) : Option ℕ :=
  match cs with
  | [] => acc
  | c :: rest => lastDotIndex rest (idx + 1) (if c = '.' then some idx else acc)

/-- `path.extname(file)` on a base name. -/
def extname (file : String) : String :=
  match lastDotIndex file.toList 0 none with
  | none => ""
  | some 0 => ""
  | some i => String.mk (file.toList.drop i)

/-- ASCII lowercasing of one character, the fragment of
`String.prototype.toLowerCase()` relevant to file extensions. -/
def lowerChar (c : Char) : Char :=
  if 65 ≤ c.toNat ∧ c.toNat ≤ 90 then Char.ofNat (c.toNat + 32) else c

/-- `file.toLowerCase()` restricted to ASCII names. -/
def toLowerStr (s : String) : String := String.mk (s.data.map lowerChar)

/-- A directory entry of the source folder: name and byte size. -/
structure SrcFile where
  name : String
  size : ℕ
  deriving DecidableEq, Repr

/-- The filesystem state the pipeline touches: the source folder listing and
the contents of the frames and grid output directories. `ffmpegAvailable`
models whether `ffmpeg -version` succeeds. -/
structure FS where
  ffmpegAvailable : Bool
  sourceFiles : List SrcFile
  framesDir : List String
  gridDir : List String
  deriving DecidableEq, Repr

/-- The supported-extension filter of `findVideo` (lines 73-76). -/
def isVideoFile (f : SrcFile) : Bool :=
  supportedFormats.contains (toLowerStr (extname f.name))

/-- `findVideo()` (lines 69-107): filters the source listing by supported
extension, then fails on zero candidates, on more than one, or on an empty
file; otherwise returns the video's name. -/
def findVideo (fs : FS) : Except VError String :=
  let videoFiles := fs.sourceFiles.filter isVideoFile
  if videoFiles.length = 0 then .error .NO_VIDEO_FOUND
  else if 1 < videoFiles.length then .error .MULTIPLE_VIDEOS
  else
    match videoFiles with
    | [] => .error .NO_VIDEO_FOUND
    | v :: _ => if v.size = 0 then .error .EMPTY_FILE else .ok v.name

/-- `validateDuration` (lines 109-136) given the duration the probe reports:
non-positive durations are rejected, then durations over 5 minutes. (`NaN`
does not exist in `ℚ`; the `isNaN` branch is unreachable in this model.) -/
def validateDuration (d : ℚ) : Except VError ℚ :=
  if d ≤ 0 then .error .INVALID_DURATION
  else if 5 < d / 60 then .error .DURATION_TOO_LONG
  else .ok d

/-- `process()` (lines 285-304), threading the filesystem state: validation
steps run first and touch nothing; only after `findVideo` and
`validateDuration` succeed does `extractFrames` purge and refill the frames
directory (via `prepareOutputFolder`) and `createGrids` purge and refill the
grid directory. On any error the state is returned unchanged. -/
def processRun (fs : FS) (durationOf : String → ℚ) : Except VError Unit × FS :=
  if fs.ffmpegAvailable = false then (.error .FFMPEG_NOT_FOUND, fs)
  else
    match findVideo fs with
    | .error e => (.error e, fs)
    | .ok v =>
      match validateDuration (durationOf v) with
      | .error e => (.error e, fs)
      | .ok d =>
        let frameFiles := extractFrames d
        let fs1 : FS := { fs with framesDir := extractedFileNames d }
        let fs2 : FS := { fs1 with gridDir := gridFileNames frameFiles.length }
        (.ok (), fs2)

/-- A probe reporting a 90-second duration for every file. -/
def constDuration90 : String → ℚ := fun _ => 90

/-- A probe reporting a 301-second duration for every file. -/
def constDuration301 : String → ℚ := fun _ => 301

/-- A source folder holding exactly one supported video, with stale output
files left over in the frames and grid directories. -/
def sampleFS : FS :=
  { ffmpegAvailable := true
    sourceFiles := [{ name := "video.mp4", size := 100 }]
    framesDir := ["stale_frame.jpg"]
    gridDir := ["stale_grid.jpg"] }

/-- The state `sampleFS` reaches after one successful 90-second run. -/
def sampleFSAfter : FS :=
  { sampleFS with
    framesDir := extractedFileNames 90
    gridDir := gridFileNames (extractFrames 90).length }

/-- The step table exactly as the spec states it, keyed on duration in
seconds: `(2,16)` when `d/60 ≤ 0.5`; `(3,20)` when `≤ 1`; `(4,28)` when `≤ 2`;
`(5,32)` when `≤ 3`; `(6,36)` when `≤ 4`; `(7,40)` otherwise. -/
def specStepTable (d : ℚ) : FrameConfig :=
  if d / 60 ≤ 0.5 then ⟨2, 16⟩
  else if d / 60 ≤ 1 then ⟨3, 20⟩
  else if d / 60 ≤ 2 then ⟨4, 28⟩
  else if d / 60 ≤ 3 then ⟨5, 32⟩
  else if d / 60 ≤ 4 then ⟨6, 36⟩
  else ⟨7, 40⟩

/-! ### Properties of the lexicographic comparator and the stable sort -/

lemma lexLtB_asymm : ∀ as bs : List Char,
    lexLtB as bs = true → lexLtB bs as = false := by
  intro as
  induction as with
  | nil =>
    intro bs h
    cases bs with
    | nil => simpa [lexLtB] using h
    | cons b bs' => simp [lexLtB]
  | cons a as' ih =>
    intro bs h
    cases bs with
    | nil => simp [lexLtB] at h
    | cons b bs' =>
      simp only [lexLtB] at h ⊢
      by_cases hab : a.toNat < b.toNat
      · rw [if_neg (by omega), if_pos hab]
      · by_cases hba : b.toNat < a.toNat
        · rw [if_neg hab, if_pos hba] at h
          simp at h
        · rw [if_neg hab, if_neg hba] at h
          rw [if_neg hba, if_neg hab]
          exact ih bs' h

lemma lexLtB_cotrans : ∀ as cs bs : List Char, lexLtB as cs = true →
    lexLtB as bs = true ∨ lexLtB bs cs = true := by
  intro as
  induction as with
  | nil =>
    intro cs bs h
    cases cs with
    | nil => simp [lexLtB] at h
    | cons c cs' =>
      cases bs with
      | nil => right; simp [lexLtB]
      | cons b bs' => left; simp [lexLtB]
  | cons a as' ih =>
    intro cs bs h
    cases cs with
    | nil => simp [lexLtB] at h
    | cons c cs' =>
      cases bs with
      | nil => right; simp [lexLtB]
      | cons b bs' =>
        simp only [lexLtB] at h ⊢
        by_cases hab : a.toNat < b.toNat
        · left
          rw [if_pos hab]
        · by_cases hac : a.toNat < c.toNat
          · right
            rw [if_pos (by omega : b.toNat < c.toNat)]
          · by_cases hca : c.toNat < a.toNat
            · rw [if_neg hac, if_pos hca] at h
              simp at h
            · rw [if_neg hac, if_neg hca] at h
              by_cases hba : b.toNat < a.toNat
              · right
                rw [if_pos (by omega : b.toNat < c.toNat)]
              · rcases ih cs' bs' h with h1 | h1
                · left
                  rw [if_neg hab, if_neg hba]
                  exact h1
                · right
                  rw [if_neg (by omega : ¬b.toNat < c.toNat),
                    if_neg (by omega : ¬c.toNat < b.toNat)]
                  exact h1

lemma strLeB_of_not_strLeB {a b : String} (h : ¬strLeB a b = true) :
    strLeB b a = true := by
  have h' : lexLtB b.data a.data = true := by
    unfold strLeB strLtB at h
    simpa using h
  unfold strLeB strLtB
  rw [lexLtB_asymm _ _ h']
  rfl

lemma strLeB_trans {a b c : String} (h1 : strLeB a b = true)
    (h2 : strLeB b c = true) : strLeB a c = true := by
  unfold strLeB strLtB at *
  simp only [Bool.not_eq_true'] at h1 h2 ⊢
  by_contra hac
  rw [Bool.not_eq_false] at hac
  rcases lexLtB_cotrans _ _ b.data hac with h | h
  · rw [h2] at h
    exact Bool.false_ne_true h
  · rw [h1] at h
    exact Bool.false_ne_true h

lemma strLeB_of_strLtB {a b : String} (h : strLtB a b = true) :
    strLeB a b = true := by
  unfold strLtB at h
  unfold strLeB strLtB
  rw [lexLtB_asymm _ _ h]
  rfl

lemma not_strLtB_of_strLeB {a b : String} (h1 : strLeB a b = true)
    (h2 : strLtB b a = true) : False := by
  unfold strLeB at h1
  rw [h2] at h1
  exact Bool.false_ne_true (by simpa using h1)

lemma insertEntry_perm (x : Entry) (l : List Entry) :
    (insertEntry x l).Perm (x :: l) := by
  induction l with
  | nil => simp [insertEntry]
  | cons y ys ih =>
    simp only [insertEntry]
    split_ifs
    · exact List.Perm.refl _
    · exact (ih.cons y).trans (List.Perm.swap x y ys)

lemma sortEntries_perm (l : List Entry) : (sortEntries l).Perm l := by
  induction l with
  | nil => exact List.Perm.refl _
  | cons x xs ih => exact (insertEntry_perm x (sortEntries xs)).trans (ih.cons x)

lemma insertEntry_pairwise {x : Entry} {l : List Entry}
    (hl : l.Pairwise (fun a b => strLeB a.1 b.1 = true)) :
    (insertEntry x l).Pairwise (fun a b => strLeB a.1 b.1 = true) := by
  induction l with
  | nil => simp [insertEntry]
  | cons y ys ih =>
    rw [List.pairwise_cons] at hl
    obtain ⟨hy, hys⟩ := hl
    simp only [insertEntry]
    split_ifs with hxy
    · refine List.Pairwise.cons ?_ (List.Pairwise.cons hy hys)
      intro b hb
      rcases List.mem_cons.mp hb with rfl | hb
      · exact hxy
      · exact strLeB_trans hxy (hy b hb)
    · refine List.Pairwise.cons ?_ (ih hys)
      intro b hb
      have hb' : b = x ∨ b ∈ ys := by
        have := (insertEntry_perm x ys).mem_iff.mp hb
        simpa using this
      rcases hb' with rfl | hb'
      · exact strLeB_of_not_strLeB hxy
      · exact hy b hb'

lemma sortEntries_pairwise (l : List Entry) :
    (sortEntries l).Pairwise (fun a b => strLeB a.1 b.1 = true) := by
  induction l with
  | nil => simp [sortEntries]
  | cons x xs ih => exact insertEntry_pairwise ih

lemma sortEntries_eq_of_pairwise {l : List Entry}
    (h : l.Pairwise (fun a b => strLeB a.1 b.1 = true)) : sortEntries l = l := by
  induction l with
  | nil => rfl
  | cons x xs ih =>
    rw [List.pairwise_cons] at h
    obtain ⟨hx, hxs⟩ := h
    simp only [sortEntries]
    rw [ih hxs]
    cases xs with
    | nil => rfl
    | cons y ys =>
      simp only [insertEntry]
      rw [if_pos (hx y (by simp))]

lemma sorted_perm_eq : ∀ {m l : List Entry}, l.Perm m →
    l.Pairwise (fun a b => strLeB a.1 b.1 = true) →
    m.Pairwise (fun a b => strLtB a.1 b.1 = true) →
    l = m := by
  intro m
  induction m with
  | nil =>
    intro l h _ _
    exact h.eq_nil
  | cons b m' ih =>
    intro l hperm hl hm
    cases l with
    | nil => simpa using hperm.length_eq
    | cons a l' =>
      rw [List.pairwise_cons] at hl hm
      obtain ⟨ha, hl'⟩ := hl
      obtain ⟨hb, hm'⟩ := hm
      have hab : a = b := by
        have hbl : b ∈ a :: l' := hperm.symm.subset (by simp)
        have ham : a ∈ b :: m' := hperm.subset (by simp)
        rcases List.mem_cons.mp hbl with h1 | h1
        · exact h1.symm
        · rcases List.mem_cons.mp ham with h2 | h2
          · exact h2
          · exact absurd (hb a h2) (fun hlt =>
              not_strLtB_of_strLeB (ha b h1) hlt)
      subst hab
      rw [ih hperm.cons_inv hl' hm']

/-! ### Numeric facts about the sampling plan and the frame count -/

lemma cfg_bounds (m : ℚ) :
    2 ≤ (getFrameConfig m).interval ∧ (getFrameConfig m).interval ≤ 7 ∧
    16 ≤ (getFrameConfig m).maxFrames ∧ (getFrameConfig m).maxFrames ≤ 40 := by
  unfold getFrameConfig
  split_ifs <;> norm_num

lemma frameCountOf_le_40 (d : ℚ) : frameCountOf d ≤ 40 :=
  le_trans (Nat.min_le_right _ _) (cfg_bounds (d / 60)).2.2.2

lemma frameCountOf_pos (d : ℚ) (h0 : 0 < d) : 1 ≤ frameCountOf d := by
  have hi : 0 < (getFrameConfig (d / 60)).interval :=
    lt_of_lt_of_le (by norm_num) (cfg_bounds (d / 60)).1
  have hfl : (0 : ℤ) ≤ ⌊d / (getFrameConfig (d / 60)).interval⌋ :=
    Int.floor_nonneg.mpr (le_of_lt (div_pos h0 hi))
  have h16 := (cfg_bounds (d / 60)).2.2.1
  unfold frameCountOf
  omega

lemma le_div_interval_of_fc {d : ℚ} {n : ℕ} (h : n + 1 ≤ frameCountOf d) :
    (n : ℚ) ≤ d / (getFrameConfig (d / 60)).interval := by
  have h1 : n + 1 ≤ (⌊d / (getFrameConfig (d / 60)).interval⌋ + 1).toNat :=
    le_trans h (Nat.min_le_left _ _)
  have h2 : (n : ℤ) ≤ ⌊d / (getFrameConfig (d / 60)).interval⌋ := by omega
  exact_mod_cast Int.le_floor.mp h2

lemma mul_interval_le_of_fc {d : ℚ} {n : ℕ} (h : n + 1 ≤ frameCountOf d) :
    (n : ℚ) * (getFrameConfig (d / 60)).interval ≤ d := by
  have hpos : 0 < (getFrameConfig (d / 60)).interval :=
    lt_of_lt_of_le (by norm_num) (cfg_bounds (d / 60)).1
  have hle := le_div_interval_of_fc h
  rwa [le_div_iff hpos] at hle

lemma two_le_d_of_fc {d : ℚ} (h : 2 ≤ frameCountOf d) : 2 ≤ d := by
  have h1 := mul_interval_le_of_fc (d := d) (n := 1) (by omega)
  have h2 := (cfg_bounds (d / 60)).1
  push_cast at h1
  linarith

lemma four_le_d_of_fc {d : ℚ} (h : 3 ≤ frameCountOf d) : 4 ≤ d := by
  have h1 := mul_interval_le_of_fc (d := d) (n := 2) (by omega)
  have h2 := (cfg_bounds (d / 60)).1
  nlinarith

lemma frameCountOf_eq_one {d : ℚ} (h0 : 0 < d)
    (hlt : d < (getFrameConfig (d / 60)).interval) : frameCountOf d = 1 := by
  have hi : 0 < (getFrameConfig (d / 60)).interval :=
    lt_of_lt_of_le (by norm_num) (cfg_bounds (d / 60)).1
  have hfl : ⌊d / (getFrameConfig (d / 60)).interval⌋ = 0 := by
    rw [Int.floor_eq_zero_iff]
    constructor
    · exact le_of_lt (div_pos h0 hi)
    · rw [div_lt_one hi]
      exact hlt
  have h16 := (cfg_bounds (d / 60)).2.2.1
  unfold frameCountOf
  omega

/-! ### The canonical form of a run's extraction list -/

lemma frameName_lt_frameName :
    ∀ i : ℕ, i < 40 → ∀ j : ℕ, j < 40 → i < j →
      strLtB (frameName i) (frameName j) = true := by
  decide

lemma frameEntries_length {d : ℚ} (h : 2 ≤ frameCountOf d) :
    (frameEntries d).length = frameCountOf d := by
  simp only [frameEntries, interiorEntries, List.length_cons, List.length_append,
    List.length_map, List.length_range, List.length_singleton, List.length_nil]
  omega

lemma frameEntries_pairwise_name {d : ℚ} (h2 : 2 ≤ frameCountOf d) :
    (frameEntries d).Pairwise (fun a b => strLtB a.1 b.1 = true) := by
  have hfc40 := frameCountOf_le_40 d
  unfold frameEntries interiorEntries firstEntry lastEntry
  rw [List.pairwise_cons]
  constructor
  · intro b hb
    rcases List.mem_append.mp hb with hbm | hbl
    · obtain ⟨i, hi, rfl⟩ := List.mem_map.mp hbm
      have him : i < frameCountOf d - 2 := List.mem_range.mp hi
      exact frameName_lt_frameName 0 (by omega) (i + 1) (by omega) (by omega)
    · rcases List.mem_singleton.mp hbl with rfl
      exact frameName_lt_frameName 0 (by omega) (frameCountOf d - 1) (by omega)
        (by omega)
  · rw [List.pairwise_append]
    refine ⟨?_, ?_, ?_⟩
    · rw [List.pairwise_map, List.pairwise_iff_getElem]
      intro i j hi hj hij
      simp only [List.length_range] at hi hj
      simp only [List.getElem_range]
      exact frameName_lt_frameName (i + 1) (by omega) (j + 1) (by omega) (by omega)
    · simp
    · intro a ha b hb
      obtain ⟨i, hi, rfl⟩ := List.mem_map.mp ha
      rcases List.mem_singleton.mp hb with rfl
      have him : i < frameCountOf d - 2 := List.mem_range.mp hi
      exact frameName_lt_frameName (i + 1) (by omega) (frameCountOf d - 1)
        (by omega) (by omega)

lemma frameEntries_pairwise_ts {d : ℚ} (h2 : 2 ≤ frameCountOf d) (hd2 : 2 ≤ d)
    (hd4 : 3 ≤ frameCountOf d → 4 ≤ d) :
    (frameEntries d).Pairwise (fun a b => a.2 < b.2) := by
  have hfc40 := frameCountOf_le_40 d
  unfold frameEntries interiorEntries firstEntry lastEntry
  have hq : ∀ i : ℕ, i < frameCountOf d - 2 →
      (0 : ℚ) < (d - 1) / ((frameCountOf d : ℚ) - 2) := by
    intro i hi
    have hfc3 : 3 ≤ frameCountOf d := by omega
    have hd4' := hd4 hfc3
    have hden : (0 : ℚ) < (frameCountOf d : ℚ) - 2 := by
      have : (3 : ℚ) ≤ (frameCountOf d : ℚ) := by exact_mod_cast hfc3
      linarith
    exact div_pos (by linarith) hden
  rw [List.pairwise_cons]
  constructor
  · intro b hb
    rcases List.mem_append.mp hb with hbm | hbl
    · obtain ⟨i, hi, rfl⟩ := List.mem_map.mp hbm
      have him : i < frameCountOf d - 2 := List.mem_range.mp hi
      have := hq i him
      have hipos : (0 : ℚ) < (i : ℚ) + 1 := by positivity
      simpa using mul_pos hipos this
    · rcases List.mem_singleton.mp hbl with rfl
      show (0 : ℚ) < d - 0.1
      linarith
  · rw [List.pairwise_append]
    refine ⟨?_, ?_, ?_⟩
    · rw [List.pairwise_map, List.pairwise_iff_getElem]
      intro i j hi hj hij
      simp only [List.length_range] at hi hj
      simp only [List.getElem_range]
      have := hq j hj
      have hcast : ((i : ℚ) + 1) < ((j : ℚ) + 1) := by
        have : (i : ℚ) < (j : ℚ) := by exact_mod_cast hij
        linarith
      exact mul_lt_mul_of_pos_right hcast this
    · simp
    · intro a ha b hb
      obtain ⟨i, hi, rfl⟩ := List.mem_map.mp ha
      rcases List.mem_singleton.mp hb with rfl
      have him : i < frameCountOf d - 2 := List.mem_range.mp hi
      have hfc3 : 3 ≤ frameCountOf d := by omega
      have hd4' := hd4 hfc3
      have hden : (0 : ℚ) < (frameCountOf d : ℚ) - 2 := by
        have : (3 : ℚ) ≤ (frameCountOf d : ℚ) := by exact_mod_cast hfc3
        linarith
      show ((i : ℚ) + 1) * ((d - 1) / ((frameCountOf d : ℚ) - 2)) < d - 0.1
      have hle : ((i : ℚ) + 1) ≤ (frameCountOf d : ℚ) - 2 := by
        have h1 : i + 1 ≤ frameCountOf d - 2 := by omega
        have h2 : ((i + 1 : ℕ) : ℚ) ≤ ((frameCountOf d - 2 : ℕ) : ℚ) := by
          exact_mod_cast h1
        rw [Nat.cast_sub (by omega)] at h2
        push_cast at h2 ⊢
        linarith
      have hqnn : (0 : ℚ) ≤ (d - 1) / ((frameCountOf d : ℚ) - 2) :=
        le_of_lt (hq i him)
      have hstep : ((i : ℚ) + 1) * ((d - 1) / ((frameCountOf d : ℚ) - 2)) ≤
          ((frameCountOf d : ℚ) - 2) * ((d - 1) / ((frameCountOf d : ℚ) - 2)) :=
        mul_le_mul_of_nonneg_right hle hqnn
      have hcancel : ((frameCountOf d : ℚ) - 2) *
          ((d - 1) / ((frameCountOf d : ℚ) - 2)) = d - 1 := by
        rw [mul_comm, div_mul_cancel₀ _ (ne_of_gt hden)]
      rw [hcancel] at hstep
      linarith

lemma frameEntries_getLast {d : ℚ} :
    (frameEntries d).getLast? = some (lastEntry d) := by
  rw [frameEntries, ← List.cons_append, List.getLast?_concat]

lemma frameEntries_get_interior {d : ℚ} {k : ℕ} (h1 : 1 ≤ k)
    (hk : k ≤ frameCountOf d - 2) :
    (frameEntries d).get? k =
      some (frameName k, (k : ℚ) * ((d - 1) / ((frameCountOf d : ℚ) - 2))) := by
  obtain ⟨j, rfl⟩ : ∃ j, k = j + 1 := ⟨k - 1, by omega⟩
  have hj : j < frameCountOf d - 2 := by omega
  rw [frameEntries, List.get?_cons_succ,
    List.get?_append (by simpa [interiorEntries] using hj)]
  rw [interiorEntries, List.get?_map, List.get?_range hj]
  push_cast
  rfl

lemma numGrids_eq (n : ℕ) : numGrids n = (n + 3) / 4 := by
  set q : ℕ := (n + 3) / 4 with hq
  have h1 : (n : ℚ) ≤ 4 * (q : ℚ) := by exact_mod_cast (by omega : n ≤ 4 * q)
  have h2 : 4 * (q : ℚ) < (n : ℚ) + 4 := by exact_mod_cast (by omega : 4 * q < n + 4)
  have hle : (n : ℚ) / 4 ≤ ((q : ℤ) : ℚ) := by
    rw [div_le_iff (by norm_num : (0 : ℚ) < 4)]
    push_cast
    linarith
  have hlt : ((q : ℤ) : ℚ) - 1 < (n : ℚ) / 4 := by
    rw [lt_div_iff (by norm_num : (0 : ℚ) < 4)]
    push_cast
    linarith
  have hceil : ⌈(n : ℚ) / 4⌉ = (q : ℤ) := Int.ceil_eq_iff.mpr ⟨hlt, hle⟩
  unfold numGrids
  rw [hceil]
  simp

lemma lexLtB_irrefl : ∀ as : List Char, lexLtB as as = false := by
  intro as
  induction as with
  | nil => rfl
  | cons a as' ih => simp [lexLtB, ih]

lemma strLeB_refl (a : String) : strLeB a a = true := by
  unfold strLeB strLtB
  rw [lexLtB_irrefl]
  rfl

lemma sortEntries_frameEntries {d : ℚ} (h2 : 2 ≤ frameCountOf d) :
    sortEntries (frameEntries d) = frameEntries d :=
  sortEntries_eq_of_pairwise
    ((frameEntries_pairwise_name h2).imp (fun h => strLeB_of_strLtB h))

lemma extractFramesFrom_eq {d : ℚ} (h2 : 2 ≤ frameCountOf d) {mid : List Entry}
    (hmid : mid.Perm (interiorEntries d)) :
    extractFramesFrom d mid = frameEntries d := by
  have hperm : (firstEntry :: (mid ++ [lastEntry d])).Perm (frameEntries d) :=
    List.Perm.cons firstEntry (hmid.append (List.Perm.refl [lastEntry d]))
  exact sorted_perm_eq ((sortEntries_perm _).trans hperm)
    (sortEntries_pairwise _) (frameEntries_pairwise_name h2)

lemma frameCountOf_4 : frameCountOf 4 = 3 := by
  unfold frameCountOf getFrameConfig
  norm_num
  rfl

lemma frameCountOf_90 : frameCountOf 90 = 23 := by
  unfold frameCountOf getFrameConfig
  norm_num
  rfl

/-- Everything a run with `frameCount = 1` (duration below the plan interval)
produces: two extractions of `frame_000.jpg`, a returned list of that path
twice, and a single file on disk. -/
lemma degenerate_facts {d : ℚ} (h0 : 0 < d)
    (hlt : d < (getFrameConfig (d / 60)).interval) :
    frameCountOf d = 1 ∧
    interiorEntries d = [] ∧
    frameEntries d = [(frameName 0, 0), (frameName 0, d - 0.1)] ∧
    extractFramesFrom d [] = [(frameName 0, 0), (frameName 0, d - 0.1)] ∧
    extractFrames d = [frameName 0, frameName 0] ∧
    extractedFileNames d = [frameName 0] := by
  have hfc := frameCountOf_eq_one h0 hlt
  have hint : interiorEntries d = [] := by
    simp [interiorEntries, hfc]
  have hentries : frameEntries d = [(frameName 0, 0), (frameName 0, d - 0.1)] := by
    simp [frameEntries, firstEntry, lastEntry, hint, hfc]
  have hfrom : extractFramesFrom d [] = [(frameName 0, 0), (frameName 0, d - 0.1)] := by
    rw [extractFramesFrom]
    simp [sortEntries, insertEntry, strLeB_refl, firstEntry, lastEntry, hfc]
  have hext : extractFrames d = [frameName 0, frameName 0] := by
    rw [extractFrames, hint, hfrom]
    rfl
  refine ⟨hfc, hint, hentries, hfrom, hext, ?_⟩
  rw [extractedFileNames, hentries]
  simp [writeFile]

/-! ### The claims -/

/-- C4: for every duration `0 < d ≤ 300` seconds, the duration classifier
returns exactly the spec's step-table plan keyed on `d / 60`, as a pure total
function with no error path on this domain. -/
theorem c4_step_table (d : ℚ) (h0 : 0 < d) (h300 : d ≤ 300) :
    getFrameConfig (d / 60) = specStepTable d := rfl

/-- Witness for `c4_step_table` at `d = 90`. -/
theorem c4_step_table_witness :
    0 < (90 : ℚ) ∧ (90 : ℚ) ≤ 300 ∧
      getFrameConfig (90 / 60) = specStepTable 90 :=
  ⟨by norm_num, by norm_num, c4_step_table 90 (by norm_num) (by norm_num)⟩

/-- C9: for durations `0 < d1 ≤ d2 ≤ 300`, both fields of the sampling
plan are monotonically non-decreasing in the duration. -/
theorem c9_config_monotone (d1 d2 : ℚ) (h0 : 0 < d1) (h12 : d1 ≤ d2)
    (h300 : d2 ≤ 300) :
    (getFrameConfig (d1 / 60)).interval ≤ (getFrameConfig (d2 / 60)).interval ∧
    (getFrameConfig (d1 / 60)).maxFrames ≤ (getFrameConfig (d2 / 60)).maxFrames := by
  have h : d1 / 60 ≤ d2 / 60 := by linarith
  unfold getFrameConfig
  split_ifs <;> constructor <;> (try norm_num) <;> linarith

/-- Witness for `c9_config_monotone` at `d1 = 20`, `d2 = 100`. -/
theorem c9_config_monotone_witness :
    0 < (20 : ℚ) ∧ (20 : ℚ) ≤ 100 ∧ (100 : ℚ) ≤ 300 ∧
      ((getFrameConfig (20 / 60)).interval ≤ (getFrameConfig (100 / 60)).interval ∧
       (getFrameConfig (20 / 60)).maxFrames ≤ (getFrameConfig (100 / 60)).maxFrames) :=
  ⟨by norm_num, by norm_num, by norm_num,
    c9_config_monotone 20 100 (by norm_num) (by norm_num) (by norm_num)⟩

/-- C5: for a frame list of length `≥ 1`, `createGrids` produces exactly
`⌈frameCount / 4⌉` batches; batch `i` carries output index `i` (fixed by
construction, independent of completion order) and holds the frames at
indices `4i .. 4i+3`; every batch but the last has exactly 4 frames, and the
last has `frameCount mod 4` (or 4 when divisible by 4). -/
theorem c5_grid_batches (f : List String) (h : 1 ≤ f.length) :
    (gridBatches f).length = numGrids f.length ∧
    ∀ i, i < (gridBatches f).length →
      (gridBatches f).get? i = some (i, (f.drop (i * 4)).take 4) ∧
      (∀ j, j < ((f.drop (i * 4)).take 4).length →
        ((f.drop (i * 4)).take 4).get? j = f.get? (i * 4 + j)) ∧
      (i + 1 < (gridBatches f).length → ((f.drop (i * 4)).take 4).length = 4) ∧
      (i + 1 = (gridBatches f).length →
        ((f.drop (i * 4)).take 4).length =
          if f.length % 4 = 0 then 4 else f.length % 4) := by
  have hng := numGrids_eq f.length
  have hlen : (gridBatches f).length = numGrids f.length := by
    simp [gridBatches]
  refine ⟨hlen, ?_⟩
  intro i hi
  rw [hlen] at hi
  have hchunklen : ((f.drop (i * 4)).take 4).length = min 4 (f.length - i * 4) := by
    simp [List.length_take, List.length_drop]
  refine ⟨?_, ?_, ?_, ?_⟩
  · rw [gridBatches, List.get?_map, List.get?_range hi]
    rfl
  · intro j hj
    rw [hchunklen] at hj
    rw [List.get?_take (by omega : j < 4), List.get?_drop]
  · intro hlast
    rw [hlen, hng] at hlast
    rw [hng] at hi
    rw [hchunklen]
    omega
  · intro hlast
    rw [hlen, hng] at hlast
    rw [hng] at hi
    rw [hchunklen]
    split_ifs with hmod <;> omega

/-- Witness for `c5_grid_batches` on a 5-frame list: 2 batches, the first of
4 frames, the last of 1. -/
theorem c5_grid_batches_witness :
    1 ≤ (["a", "b", "c", "d", "e"] : List String).length ∧
    (gridBatches ["a", "b", "c", "d", "e"]).length =
      numGrids (["a", "b", "c", "d", "e"] : List String).length :=
  ⟨by norm_num, (c5_grid_batches ["a", "b", "c", "d", "e"] (by norm_num)).1⟩

/-- C6: `createGrid` on 1 to 4 ordered frames and batch index `i` writes
one 1920×1080 black-background composite named `grid_<i padded to 3>.jpg`;
frame `k` goes to the row-major quadrant at `top = (k / 2) * 540 + 1`,
`left = (k mod 2) * 960 + 1`, resized to `958 × 538`; fewer than 4 frames
leave the remaining quadrants as background and raise no error. -/
theorem c6_grid_layout (frameFiles : List String) (gridIndex : ℕ)
    (hlow : 1 ≤ frameFiles.length) (hhigh : frameFiles.length ≤ 4) :
    ∃ g : GridOutput,
      createGrid frameFiles gridIndex = some g ∧
      g.fileName = "grid_" ++ padStart3 (toString gridIndex) ++ ".jpg" ∧
      g.canvasWidth = 1920 ∧ g.canvasHeight = 1080 ∧
      g.backgroundRGB = (0, 0, 0) ∧
      g.overlays.length = frameFiles.length ∧
      ∀ k, (hk : k < frameFiles.length) →
        g.overlays.get? k = some
          { source := frameFiles.get ⟨k, hk⟩
            top := k / 2 * 540 + 1
            left := k % 2 * 960 + 1
            width := 958
            height := 538 } := by
  have hne : ¬(frameFiles.length = 0) := by omega
  have htake : frameFiles.take 4 = frameFiles := List.take_of_length_le hhigh
  unfold createGrid
  rw [if_neg hne]
  refine ⟨_, rfl, rfl, rfl, rfl, rfl, ?_, ?_⟩
  · simp [htake]
  · intro k hk
    rw [htake]
    have hk' : k < (frameFiles.mapIdx (fun index f =>
        ({ source := f
           top := index / 2 * (1080 / 2) + 2 / 2
           left := index % 2 * (1920 / 2) + 2 / 2
           width := 1920 / 2 - 2
           height := 1080 / 2 - 2 } : Overlay))).length := by
      simpa using hk
    rw [List.get?_eq_get hk', List.get_mapIdx]

/-- Witness for `c6_grid_layout` on a 2-frame batch at index 1. -/
theorem c6_grid_layout_witness :
    1 ≤ (["a.jpg", "b.jpg"] : List String).length ∧
    (["a.jpg", "b.jpg"] : List String).length ≤ 4 ∧
    ∃ g : GridOutput, createGrid ["a.jpg", "b.jpg"] 1 = some g ∧
      g.fileName = "grid_" ++ padStart3 (toString 1) ++ ".jpg" := by
  refine ⟨by norm_num, by norm_num, ?_⟩
  obtain ⟨g, hg, hname, -⟩ := c6_grid_layout ["a.jpg", "b.jpg"] 1
    (by norm_num) (by norm_num)
  exact ⟨g, hg, hname⟩

/-- C1 (amended): for every valid run of duration `0 < d ≤ 300` whose
computed `frameCount = min(floor(d/interval)+1, maxFrames)` is at least 2
(equivalently, `interval ≤ d`), `extractFrames` returns exactly `frameCount`
frame file paths, the first returned frame was extracted at timestamp exactly
`0`, and the last at exactly `d - 0.1`. (The original claim, quantifying over
all valid runs, fails when `frameCount = 1`; see the counterexample.) -/
theorem c1_extract_counts (d : ℚ) (h0 : 0 < d) (h300 : d ≤ 300)
    (h2 : 2 ≤ frameCountOf d) :
    (extractFrames d).length = frameCountOf d ∧
    (extractFramesFrom d (interiorEntries d)).head? = some (frameName 0, 0) ∧
    (extractFramesFrom d (interiorEntries d)).getLast? =
      some (frameName (frameCountOf d - 1), d - 0.1) := by
  have heq : extractFramesFrom d (interiorEntries d) = frameEntries d :=
    extractFramesFrom_eq h2 (List.Perm.refl _)
  refine ⟨?_, ?_, ?_⟩
  · rw [extractFrames, heq, List.length_map, frameEntries_length h2]
  · rw [heq]
    rfl
  · rw [heq, frameEntries_getLast]
    rfl

/-- Witness for `c1_extract_counts` at `d = 4` (plan `(2,16)`,
`frameCount = 3`). -/
theorem c1_extract_counts_witness :
    (0 < (4 : ℚ) ∧ (4 : ℚ) ≤ 300 ∧ 2 ≤ frameCountOf 4) ∧
    (extractFrames 4).length = frameCountOf 4 :=
  ⟨⟨by norm_num, by norm_num, by rw [frameCountOf_4]; norm_num⟩,
    (c1_extract_counts 4 (by norm_num) (by norm_num)
      (by rw [frameCountOf_4]; norm_num)).1⟩

/-- C1 counterexample: `d = 1` is a valid duration (`0 < 1 ≤ 300`), yet
`extractFrames` returns 2 paths while the computed frame count is 1, so the
claim's count equation fails on this valid run. -/
theorem c1_counterexample :
    (0 < (1 : ℚ) ∧ (1 : ℚ) ≤ 300) ∧
    (extractFrames 1).length ≠ frameCountOf 1 := by
  obtain ⟨hfc, -, -, -, hext, -⟩ := degenerate_facts (d := 1) (by norm_num)
    (by norm_num [getFrameConfig])
  refine ⟨⟨by norm_num, by norm_num⟩, ?_⟩
  rw [hfc, hext]
  norm_num

/-- C2: in every valid run with computed `frameCount ≥ 3`, the `k`-th
returned frame (`k = 1 .. frameCount - 2`) was extracted at timestamp exactly
`k * ((d - 1) / (frameCount - 2))` — the re-spaced formula, not the plan's
nominal interval. -/
theorem c2_interior_formula (d : ℚ) (h0 : 0 < d) (h300 : d ≤ 300)
    (h3 : 3 ≤ frameCountOf d) :
    ∀ k, 1 ≤ k → k ≤ frameCountOf d - 2 →
      (extractFramesFrom d (interiorEntries d)).get? k =
        some (frameName k,
          (k : ℚ) * ((d - 1) / ((frameCountOf d : ℚ) - 2))) := by
  intro k hk1 hk2
  have h2 : 2 ≤ frameCountOf d := by omega
  rw [extractFramesFrom_eq h2 (List.Perm.refl _)]
  exact frameEntries_get_interior hk1 hk2

/-- Witness for `c2_interior_formula` at `d = 90`, `k = 1`
(`frameCount = 23`). -/
theorem c2_interior_formula_witness :
    (0 < (90 : ℚ) ∧ (90 : ℚ) ≤ 300 ∧ 3 ≤ frameCountOf 90 ∧
      1 ≤ 1 ∧ 1 ≤ frameCountOf 90 - 2) ∧
    (extractFramesFrom 90 (interiorEntries 90)).get? 1 =
      some (frameName 1, (1 : ℚ) * ((90 - 1) / ((frameCountOf 90 : ℚ) - 2))) :=
  ⟨⟨by norm_num, by norm_num, by rw [frameCountOf_90]; norm_num, le_refl 1,
      by rw [frameCountOf_90]; norm_num⟩,
    c2_interior_formula 90 (by norm_num) (by norm_num)
      (by rw [frameCountOf_90]; norm_num) 1 (le_refl 1)
      (by rw [frameCountOf_90]; norm_num)⟩

/-- C3 (amended): for every valid run of duration `d > 0.1` seconds, the
sorted output of `extractFrames` does not depend on the completion order of
the concurrent interior extractions, and its extraction timestamps are
strictly increasing in the sorted (lexicographic file-name) order. (The
original claim, over all valid runs, fails for durations `≤ 0.1` s, where the
final extraction timestamp `d - 0.1` is not greater than the first
timestamp `0`; see the counterexample.) -/
theorem c3_sorted_ascending (d : ℚ) (h0 : 0 < d) (h300 : d ≤ 300)
    (h01 : (0.1 : ℚ) < d) (mid : List Entry)
    (hmid : mid.Perm (interiorEntries d)) :
    extractFramesFrom d mid = extractFramesFrom d (interiorEntries d) ∧
    ((extractFramesFrom d mid).map Prod.snd).Pairwise (· < ·) := by
  by_cases h2 : 2 ≤ frameCountOf d
  · have he1 := extractFramesFrom_eq h2 hmid
    have he2 := extractFramesFrom_eq h2 (List.Perm.refl (interiorEntries d))
    refine ⟨he1.trans he2.symm, ?_⟩
    rw [he1, List.pairwise_map]
    exact frameEntries_pairwise_ts h2 (two_le_d_of_fc h2)
      (fun h3 => four_le_d_of_fc h3)
  · have hfc : frameCountOf d = 1 := by
      have := frameCountOf_pos d h0
      omega
    have hint : interiorEntries d = [] := by
      simp [interiorEntries, hfc]
    rw [hint] at hmid
    have hmidnil : mid = [] := hmid.eq_nil
    subst hmidnil
    rw [hint]
    have hval : extractFramesFrom d [] = [firstEntry, lastEntry d] := by
      rw [extractFramesFrom]
      simp [sortEntries, insertEntry, firstEntry, lastEntry, hfc, strLeB_refl]
    refine ⟨rfl, ?_⟩
    rw [hval]
    simp only [List.map_cons, List.map_nil]
    refine List.Pairwise.cons ?_ (by simp)
    intro b hb
    rcases List.mem_singleton.mp hb with rfl
    show firstEntry.2 < (lastEntry d).2
    show (0 : ℚ) < d - 0.1
    linarith

/-- Witness for `c3_sorted_ascending` at `d = 90` with the interior
extractions completing in issue order. -/
theorem c3_sorted_ascending_witness :
    (0 < (90 : ℚ) ∧ (90 : ℚ) ≤ 300 ∧ (0.1 : ℚ) < 90) ∧
    ((extractFramesFrom 90 (interiorEntries 90)).map Prod.snd).Pairwise
      (· < ·) :=
  ⟨⟨by norm_num, by norm_num, by norm_num⟩,
    (c3_sorted_ascending 90 (by norm_num) (by norm_num) (by norm_num)
      (interiorEntries 90) (List.Perm.refl _)).2⟩

/-- C3 counterexample: `d = 1/20` (0.05 s) is a valid duration
(`0 < d ≤ 300`), yet the sorted extraction timestamps are `[0, -1/20]`,
which is not strictly increasing. -/
theorem c3_counterexample :
    (0 < (1/20 : ℚ) ∧ (1/20 : ℚ) ≤ 300) ∧
    ¬ (((extractFramesFrom (1/20) (interiorEntries (1/20))).map
        Prod.snd).Pairwise (· < ·)) := by
  obtain ⟨-, hint, -, hfrom, -, -⟩ := degenerate_facts (d := 1/20)
    (by norm_num) (by norm_num [getFrameConfig])
  refine ⟨⟨by norm_num, by norm_num⟩, ?_⟩
  rw [hint, hfrom]
  intro hpair
  have h01 := (List.pairwise_cons.mp hpair).1 (1/20 - 0.1 : ℚ) (by simp)
  norm_num at h01

/-- C10: for every duration `0 < d < interval` (so the computed
`frameCount` is 1), `extractFrames` still performs two extractions — at `0`
and at `d - 0.1` — both targeting `frame_000.jpg` (the second write
overwriting the first, so the frames directory holds a single file), and
returns that path twice: the returned length 2 exceeds the computed
frame count 1. -/
theorem c10_degenerate_run (d : ℚ) (h0 : 0 < d)
    (hlt : d < (getFrameConfig (d / 60)).interval) :
    frameCountOf d = 1 ∧
    frameEntries d = [(frameName 0, 0), (frameName 0, d - 0.1)] ∧
    extractFrames d = [frameName 0, frameName 0] ∧
    extractedFileNames d = [frameName 0] ∧
    (extractFrames d).length = 2 := by
  obtain ⟨hfc, -, hentries, -, hext, hfiles⟩ := degenerate_facts h0 hlt
  refine ⟨hfc, hentries, hext, hfiles, ?_⟩
  rw [hext]
  rfl

/-- Witness for `c10_degenerate_run` at `d = 1` (interval 2). -/
theorem c10_degenerate_run_witness :
    (0 < (1 : ℚ) ∧ (1 : ℚ) < (getFrameConfig (1 / 60)).interval) ∧
    frameCountOf 1 = 1 ∧ (extractFrames 1).length = 2 := by
  refine ⟨⟨by norm_num, by norm_num [getFrameConfig]⟩, ?_, ?_⟩
  · exact (c10_degenerate_run 1 (by norm_num) (by norm_num [getFrameConfig])).1
  · exact (c10_degenerate_run 1 (by norm_num)
      (by norm_num [getFrameConfig])).2.2.2.2

/-- C7: with zero supported video files, with more than one, or with a
single video whose reported duration exceeds 300 s (for instance exactly
301 s), the pipeline fails with the corresponding typed error code before any
frame extraction and before any purge: the frames and grid directories are
returned exactly as they were. -/
theorem c7_failfast (fs : FS) (durationOf : String → ℚ)
    (hff : fs.ffmpegAvailable = true) :
    ((fs.sourceFiles.filter isVideoFile).length = 0 →
      processRun fs durationOf = (.error .NO_VIDEO_FOUND, fs)) ∧
    (1 < (fs.sourceFiles.filter isVideoFile).length →
      processRun fs durationOf = (.error .MULTIPLE_VIDEOS, fs)) ∧
    (∀ v, findVideo fs = .ok v → 300 < durationOf v →
      processRun fs durationOf = (.error .DURATION_TOO_LONG, fs)) := by
  have hns : ¬(fs.ffmpegAvailable = false) := by simp [hff]
  refine ⟨?_, ?_, ?_⟩
  · intro h
    have hfv : findVideo fs = .error .NO_VIDEO_FOUND := by
      simp only [findVideo]
      rw [if_pos h]
    rw [processRun, if_neg hns, hfv]
  · intro h
    have h0 : ¬((fs.sourceFiles.filter isVideoFile).length = 0) := by omega
    have hfv : findVideo fs = .error .MULTIPLE_VIDEOS := by
      simp only [findVideo]
      rw [if_neg h0, if_pos h]
    rw [processRun, if_neg hns, hfv]
  · intro v hv hd
    have hvd : validateDuration (durationOf v) = .error .DURATION_TOO_LONG := by
      rw [validateDuration, if_neg (by linarith : ¬(durationOf v ≤ 0)),
        if_pos (by linarith : (5 : ℚ) < durationOf v / 60)]
    rw [processRun, if_neg hns, hv]
    simp [hvd]

/-- Witness for `c7_failfast`: a single 301-second video is rejected with
`DURATION_TOO_LONG` and the stale directory contents of `sampleFS` are left
untouched. -/
theorem c7_failfast_witness :
    sampleFS.ffmpegAvailable = true ∧
    findVideo sampleFS = .ok "video.mp4" ∧ 300 < constDuration301 "video.mp4" ∧
    processRun sampleFS constDuration301 = (.error .DURATION_TOO_LONG, sampleFS) :=
  ⟨rfl, rfl, by norm_num [constDuration301],
    (c7_failfast sampleFS constDuration301 rfl).2.2 "video.mp4" rfl
      (by norm_num [constDuration301])⟩

/-- C8: a successful run purges each output directory before refilling
it, so its final state holds exactly the run's own files; re-running the
pipeline on the unchanged source reproduces the same state — identical frame
and grid file lists (hence counts), with no stale file surviving. -/
theorem c8_rerun_idempotent (fs : FS) (durationOf : String → ℚ) (fs1 : FS)
    (h : processRun fs durationOf = (.ok (), fs1)) :
    processRun fs1 durationOf = (.ok (), fs1) ∧
    ∃ v d, findVideo fs = .ok v ∧ validateDuration (durationOf v) = .ok d ∧
      fs1.framesDir = extractedFileNames d ∧
      fs1.gridDir = gridFileNames (extractFrames d).length := by
  by_cases hff : fs.ffmpegAvailable = false
  · rw [processRun, if_pos hff] at h
    simp at h
  · rw [processRun, if_neg hff] at h
    split at h
    · simp at h
    · split at h
      · simp at h
      · rename_i x1 v hv x2 d hd
        simp only [Prod.mk.injEq] at h
        obtain ⟨-, hfs1⟩ := h
        subst hfs1
        refine ⟨?_, v, d, hv, hd, rfl, rfl⟩
        have hfv1 : findVideo { fs with
            framesDir := extractedFileNames d
            gridDir := gridFileNames (extractFrames d).length } = findVideo fs :=
          rfl
        rw [processRun, if_neg hff, hfv1, hv]
        simp [hd]

/-- Witness for `c8_rerun_idempotent`: running the pipeline on `sampleFS`
(which holds stale files in both output directories) with a 90-second video
reaches `sampleFSAfter`, and a second run reproduces `sampleFSAfter`
exactly. -/
theorem c8_rerun_idempotent_witness :
    processRun sampleFS constDuration90 = (.ok (), sampleFSAfter) ∧
    processRun sampleFSAfter constDuration90 = (.ok (), sampleFSAfter) := by
  have hfv : findVideo sampleFS = .ok "video.mp4" := rfl
  have hvd : validateDuration (constDuration90 "video.mp4") = .ok 90 := by
    rw [validateDuration, constDuration90]
    norm_num
  have h1 : processRun sampleFS constDuration90 = (.ok (), sampleFSAfter) := by
    rw [processRun, if_neg (by decide : ¬(sampleFS.ffmpegAvailable = false)), hfv]
    simp [hvd, sampleFSAfter, sampleFS]
  exact ⟨h1, (c8_rerun_idempotent sampleFS constDuration90 sampleFSAfter h1).1⟩

end VideoToGrid
